import Mathlib

/-!
Shallow embedding of `src/Aliasing/aliasing.py`: a manual DFT engine
(`compute_dft`), a signal generator (`gen_sig`), and the plot controller
(`Aliasing_Window`) with its frequency-update transition.  Python floats are
modelled by real numbers, complex64 values by `ℂ`, numpy arrays by lists.
-/

open scoped BigOperators

noncomputable section

/-- Real-arithmetic model of `numpy.arange(0, stop, step)`: the values
`n * step` for `0 ≤ n < ⌈stop / step⌉`.  For `stop ≤ 0` (with `step > 0`)
the list is empty, as in numpy. -/
def arange0 (stop step : ℝ) : List ℝ :=
  (List.range (Nat.ceil (stop / step))).map (fun n : ℕ => (n : ℝ) * step)

/-- The `k`-th spectral coefficient computed by the loop body of
`compute_dft`: `np.sum(sig * np.exp(-1j*2*np.pi*k*idxs/N))` with `N = len(sig)`. -/
def dftCoeff (sig : List ℝ) (k : ℕ) : ℂ :=
  ∑ n ∈ Finset.range sig.length,
    ((sig.getD n 0 : ℝ) : ℂ) *
      Complex.exp (-Complex.I * 2 * (Real.pi : ℂ) * (k : ℂ) * (n : ℂ) / (sig.length : ℂ))

/-- Source function `compute_dft(fs, duree, sig)`: frequency axis
`np.arange(0, 3*fs, 1/duree)` and, for each `(k, f)` in `enumerate(freqs)`,
`tf[k] = np.sum(sig * np.exp(-1j*2*np.pi*k*idxs/N))` — the exponent uses the
index `k`, the frequency value `f` is unused. -/
def compute_dft (fs duree : ℝ) (sig : List ℝ) : List ℝ × List ℂ :=
  let freqs := arange0 (3 * fs) (1 / duree)
  let tf := freqs.enum.map (fun kf => dftCoeff sig kf.1)
  (freqs, tf)

/-- Source method `gen_sig` at given parameters:
`t = np.arange(0, duree, 1/fs)`, `sig = np.sin(2*np.pi*freq*t)`. -/
def gen_sig (fs duree freq : ℝ) : List ℝ × List ℝ :=
  let t := arange0 duree (1 / fs)
  (t, t.map (fun x => Real.sin (2 * Real.pi * freq * x)))

/-- A vertical reference line drawn with `axvline`; `solid` is false for the
dashed marker lines and true for the plain one. -/
structure AxvLine where
  pos : ℝ
  solid : Bool
  deriving DecidableEq

/-- The vertical marker lines drawn by `init_freq_domain`: for
`idx in range(4)` a dashed line at `(idx-1)*fs + freq` and a dashed line at
`-freq + (idx+1)*fs`, then one solid line at `freq`. -/
def freq_domain_lines (fs freq : ℝ) : List AxvLine :=
  ((List.range 4).flatMap (fun idx : ℕ =>
      [⟨((idx : ℝ) - 1) * fs + freq, false⟩, ⟨-freq + ((idx : ℝ) + 1) * fs, false⟩])) ++
    [⟨freq, true⟩]

/-- Rendered content of the time-domain axes: the dense reference curve for
the analog signal and the discrete samples. -/
structure TimeDomainPlot where
  analog : List ℝ × List ℝ
  sampled : List ℝ × List ℝ
  deriving DecidableEq

/-- Rendered content of the frequency-domain axes: the magnitude spectrum,
the vertical marker lines, and the shaded region under the first `N` bins. -/
structure FreqDomainPlot where
  spectrum : List ℝ × List ℝ
  lines : List AxvLine
  shaded : List ℝ × List ℝ
  deriving DecidableEq

/-- Source method `init_time_domain`: plots the analog reference curve sampled at
`10*f_max` over `[0, duree)` and the sampled signal from `gen_sig`. -/
def init_time_domain_render (fs duree freq f_max : ℝ) : TimeDomainPlot :=
  let an_t := arange0 duree (1 / (10 * f_max))
  let an_sig := an_t.map (fun x => Real.sin (2 * Real.pi * freq * x))
  ⟨(an_t, an_sig), gen_sig fs duree freq⟩

/-- Source method `init_freq_domain`: computes the DFT of the sampled signal, plots its
magnitude, draws the marker lines, and shades the first `len(sig)` bins. -/
def init_freq_domain_render (fs duree freq : ℝ) : FreqDomainPlot :=
  let sig := (gen_sig fs duree freq).2
  let ft := compute_dft fs duree sig
  let mags := ft.2.map Complex.abs
  ⟨(ft.1, mags), freq_domain_lines fs freq, (ft.1.take sig.length, mags.take sig.length)⟩

/-- The state owned by `Aliasing_Window`: the sampling parameters together
with the rendered content of the two plot axes. -/
structure Aliasing_Window where
  fs : ℝ
  freq : ℝ
  duree : ℝ
  f_min : ℝ
  f_max : ℝ
  td : TimeDomainPlot
  fd : FreqDomainPlot

/-- A window is idle when both plot surfaces show exactly the renders of the
current parameters (the resting state after construction or any update). -/
def Aliasing_Window.Idle (w : Aliasing_Window) : Prop :=
  w.td = init_time_domain_render w.fs w.duree w.freq w.f_max ∧
  w.fd = init_freq_domain_render w.fs w.duree w.freq

/-- Constructor `Aliasing_Window.__init__`: default parameters `fs = 50`, `freq = 1`,
`duree = 3`, `f_min = 1`, `f_max = 150`, both domains rendered. -/
def Aliasing_Window.init : Aliasing_Window :=
  ⟨50, 1, 3, 1, 150, init_time_domain_render 50 3 1 150, init_freq_domain_render 50 3 1⟩

/-- Source method `Aliasing_Window.update(freq)`: store the new frequency, clear both axes
and re-render both domains from the new parameters. -/
def Aliasing_Window.update (w : Aliasing_Window) (freq : ℝ) : Aliasing_Window :=
  { w with
    freq := freq
    td := init_time_domain_render w.fs w.duree freq w.f_max
    fd := init_freq_domain_render w.fs w.duree freq }

/-- The error taxonomy of the spec: malformed input to the engine, or an
animation-export failure. -/
inductive DSPError where
  | InvalidInput
  | ExportError
  deriving DecidableEq

/-- Modelled from the spec: the engine contract `compute_spectrum`.  The
source's `compute_dft` performs no validation; the spec requires a
reimplementation to fail with `InvalidInput` when `N == 0` or
`sample_rate <= 0` or `window_duration <= 0`, and otherwise to return the
frequency axis and spectrum of the direct-summation DFT. -/
def compute_spectrum (fs duree : ℝ) (sig : List ℝ) :
    Except DSPError (List ℝ × List ℂ) :=
  if sig.length = 0 ∨ fs ≤ 0 ∨ duree ≤ 0 then
    Except.error DSPError.InvalidInput
  else
    Except.ok (compute_dft fs duree sig)

end

lemma arange0_length (stop step : ℝ) :
    (arange0 stop step).length = Nat.ceil (stop / step) := by
  rw [arange0, List.length_map, List.length_range]

lemma arange0_getD (stop step : ℝ) (k : ℕ) (hk : k < (arange0 stop step).length) :
    (arange0 stop step).getD k 0 = (k : ℝ) * step := by
  rw [List.getD_eq_getElem _ _ hk]
  simp only [arange0, List.getElem_map, List.getElem_range]

lemma arange0_mem (stop step x : ℝ) :
    x ∈ arange0 stop step ↔ ∃ n : ℕ, (n : ℝ) < stop / step ∧ x = (n : ℝ) * step := by
  unfold arange0
  constructor
  · intro hx
    rcases List.mem_map.1 hx with ⟨n, hn, h⟩
    exact ⟨n, Nat.lt_ceil.1 (List.mem_range.1 hn), h.symm⟩
  · rintro ⟨n, hn, rfl⟩
    exact List.mem_map.2 ⟨n, List.mem_range.2 (Nat.lt_ceil.2 hn), rfl⟩

lemma arange0_mem_lt {stop step x : ℝ} (hstep : 0 < step)
    (hx : x ∈ arange0 stop step) : x < stop := by
  rcases (arange0_mem stop step x).1 hx with ⟨n, hn, rfl⟩
  calc (n : ℝ) * step < (stop / step) * step := by
        exact mul_lt_mul_of_pos_right hn hstep
    _ = stop := div_mul_cancel₀ stop (ne_of_gt hstep)

lemma compute_dft_fst (fs duree : ℝ) (sig : List ℝ) :
    (compute_dft fs duree sig).1 = arange0 (3 * fs) (1 / duree) := rfl

lemma compute_dft_snd_length (fs duree : ℝ) (sig : List ℝ) :
    (compute_dft fs duree sig).2.length = (arange0 (3 * fs) (1 / duree)).length := by
  simp [compute_dft]

lemma compute_dft_snd_getD (fs duree : ℝ) (sig : List ℝ) (k : ℕ)
    (hk : k < (compute_dft fs duree sig).2.length) :
    (compute_dft fs duree sig).2.getD k 0 = dftCoeff sig k := by
  simp only [compute_dft] at hk ⊢
  rw [List.getD_eq_getElem _ _ hk]
  simp

lemma compute_spectrum_ok (fs duree : ℝ) (sig : List ℝ)
    (h1 : 0 < fs) (h2 : 0 < duree) (h3 : sig ≠ []) :
    compute_spectrum fs duree sig = Except.ok (compute_dft fs duree sig) := by
  rw [compute_spectrum, if_neg]
  push_neg
  exact ⟨by simpa using h3, h1, h2⟩

lemma dftCoeff_of_forall_zero {sig : List ℝ} (h : ∀ x ∈ sig, x = 0) (k : ℕ) :
    dftCoeff sig k = 0 := by
  unfold dftCoeff
  apply Finset.sum_eq_zero
  intro n _
  have hz : sig.getD n 0 = 0 := by
    rcases lt_or_ge n sig.length with h1 | h1
    · rw [List.getD_eq_getElem _ _ h1]
      exact h _ (List.getElem_mem h1)
    · exact List.getD_eq_default _ _ h1
  rw [hz]
  simp

lemma dftCoeff_add_length (sig : List ℝ) (h : sig ≠ []) (k : ℕ) :
    dftCoeff sig (k + sig.length) = dftCoeff sig k := by
  unfold dftCoeff
  apply Finset.sum_congr rfl
  intro n _
  congr 1
  have hN : (sig.length : ℂ) ≠ 0 := by
    have : sig.length ≠ 0 := by simpa [List.length_eq_zero] using h
    exact_mod_cast Nat.cast_ne_zero.2 this
  have key : -Complex.I * 2 * (Real.pi : ℂ) * ((k + sig.length : ℕ) : ℂ) * (n : ℂ) /
        (sig.length : ℂ) =
      -Complex.I * 2 * (Real.pi : ℂ) * (k : ℂ) * (n : ℂ) / (sig.length : ℂ) +
        ((-(n : ℤ) : ℤ) : ℂ) * (2 * (Real.pi : ℂ) * Complex.I) := by
    push_cast
    field_simp
    ring
  rw [key, Complex.exp_add, Complex.exp_int_mul_two_pi_mul_I, mul_one]

/-- C1: for every valid input (`sample_rate > 0`, `window_duration > 0`,
non-empty signal of length `N`), `compute_spectrum` returns, at every
frequency-axis index `k`, the direct summation
`X[k] = Σ_{n=0}^{N-1} signal[n] · exp(-i·2π·k·n/N)`, the exponent indexed by
the bin index `k`. -/
theorem compute_spectrum_formula (fs duree : ℝ) (sig : List ℝ)
    (h1 : 0 < fs) (h2 : 0 < duree) (h3 : sig ≠ []) :
    ∃ freqs tf, compute_spectrum fs duree sig = Except.ok (freqs, tf) ∧
      ∀ k < tf.length, tf.getD k 0 =
        ∑ n ∈ Finset.range sig.length,
          ((sig.getD n 0 : ℝ) : ℂ) *
            Complex.exp (-Complex.I * 2 * (Real.pi : ℂ) * (k : ℂ) * (n : ℂ) /
              (sig.length : ℂ)) := by
  refine ⟨(compute_dft fs duree sig).1, (compute_dft fs duree sig).2, ?_, ?_⟩
  · rw [compute_spectrum_ok fs duree sig h1 h2 h3]
  · intro k hk
    exact compute_dft_snd_getD fs duree sig k hk

/-- Witness for C1 at `fs = 1`, `duree = 1`, `sig = [1]`. -/
theorem compute_spectrum_formula_witness :
    ∃ freqs tf, compute_spectrum 1 1 [1] = Except.ok (freqs, tf) ∧
      ∀ k < tf.length, tf.getD k 0 =
        ∑ n ∈ Finset.range ([(1 : ℝ)].length),
          (([(1 : ℝ)].getD n 0 : ℝ) : ℂ) *
            Complex.exp (-Complex.I * 2 * (Real.pi : ℂ) * (k : ℂ) * (n : ℂ) /
              (([(1 : ℝ)].length : ℂ))) :=
  compute_spectrum_formula 1 1 [1] (by norm_num) (by norm_num) (by simp)

/-- C3: `compute_spectrum` fails with `InvalidInput` whenever the signal is
empty or `sample_rate ≤ 0` or `window_duration ≤ 0`, and succeeds (returning
the DFT of the signal) on every valid input. -/
theorem compute_spectrum_validation (fs duree : ℝ) (sig : List ℝ) :
    (sig = [] ∨ fs ≤ 0 ∨ duree ≤ 0 →
      compute_spectrum fs duree sig = Except.error DSPError.InvalidInput) ∧
    (sig ≠ [] → 0 < fs → 0 < duree →
      compute_spectrum fs duree sig = Except.ok (compute_dft fs duree sig)) := by
  constructor
  · intro h
    rw [compute_spectrum, if_pos]
    rcases h with h | h | h
    · exact Or.inl (by simp [h])
    · exact Or.inr (Or.inl h)
    · exact Or.inr (Or.inr h)
  · intro h3 h1 h2
    exact compute_spectrum_ok fs duree sig h1 h2 h3

/-- Witness for C3: an empty signal and a zero sample rate are rejected with
`InvalidInput`; a valid input succeeds. -/
theorem compute_spectrum_validation_witness :
    compute_spectrum 0 1 [1] = Except.error DSPError.InvalidInput ∧
    compute_spectrum 1 1 [] = Except.error DSPError.InvalidInput ∧
    compute_spectrum 1 1 [1] = Except.ok (compute_dft 1 1 [1]) :=
  ⟨(compute_spectrum_validation 0 1 [1]).1 (Or.inr (Or.inl (by norm_num))),
   (compute_spectrum_validation 1 1 []).1 (Or.inl rfl),
   (compute_spectrum_validation 1 1 [1]).2 (by simp) (by norm_num) (by norm_num)⟩

/-- C6: the `update` transition changes only the signal frequency among the
parameters — `fs`, `duree`, `f_min`, `f_max` are unchanged — and leaves the
window idle (both domains re-rendered from the new parameters). -/
theorem update_frame (w : Aliasing_Window) (f : ℝ) :
    (w.update f).fs = w.fs ∧ (w.update f).duree = w.duree ∧
    (w.update f).f_min = w.f_min ∧ (w.update f).f_max = w.f_max ∧
    (w.update f).freq = f ∧ (w.update f).Idle :=
  ⟨rfl, rfl, rfl, rfl, rfl, rfl, rfl⟩

/-- C10: the spectrum is periodic in the bin index with period `N`: the
coefficient at `k + N` equals the coefficient at `k`, and whenever both
indices lie on the frequency axis the stored values agree. -/
theorem dft_period (fs duree : ℝ) (sig : List ℝ) (h : sig ≠ []) (k : ℕ) :
    dftCoeff sig (k + sig.length) = dftCoeff sig k ∧
    (k + sig.length < (compute_dft fs duree sig).2.length →
      (compute_dft fs duree sig).2.getD (k + sig.length) 0 =
        (compute_dft fs duree sig).2.getD k 0) := by
  refine ⟨dftCoeff_add_length sig h k, fun hk => ?_⟩
  rw [compute_dft_snd_getD _ _ _ _ hk,
    compute_dft_snd_getD _ _ _ _ (lt_of_le_of_lt (Nat.le_add_right k sig.length) hk)]
  exact dftCoeff_add_length sig h k

/-- Witness for C10 at `sig = [1]`, `k = 0`, `fs = duree = 1`. -/
theorem dft_period_witness :
    dftCoeff [(1 : ℝ)] (0 + [(1 : ℝ)].length) = dftCoeff [(1 : ℝ)] 0 ∧
    (0 + [(1 : ℝ)].length < (compute_dft 1 1 [1]).2.length →
      (compute_dft 1 1 [1]).2.getD (0 + [(1 : ℝ)].length) 0 =
        (compute_dft 1 1 [1]).2.getD 0 0) :=
  dft_period 1 1 [1] (by simp) 0

/-- A window with the default parameters. -/
noncomputable def window_a : Aliasing_Window := Aliasing_Window.init

/-- A second window sharing the default sampling parameters but differing in
an unrelated field. -/
noncomputable def window_b : Aliasing_Window := { Aliasing_Window.init with f_min := 0 }

/-- C9: signal generation is deterministic — two windows whose `fs`, `duree`
and `freq` agree generate identical sample sequences (equal time lists and
equal amplitude lists). -/
theorem gen_sig_deterministic (w1 w2 : Aliasing_Window)
    (hfs : w1.fs = w2.fs) (hd : w1.duree = w2.duree) (hf : w1.freq = w2.freq) :
    gen_sig w1.fs w1.duree w1.freq = gen_sig w2.fs w2.duree w2.freq := by
  rw [hfs, hd, hf]

/-- Witness for C9 on two concrete windows with equal sampling parameters. -/
theorem gen_sig_deterministic_witness :
    gen_sig window_a.fs window_a.duree window_a.freq =
      gen_sig window_b.fs window_b.duree window_b.freq :=
  gen_sig_deterministic window_a window_b rfl rfl rfl

/-- C2 counterexample: at the valid input `fs = 1/2`, `duree = 1/2` the
frequency axis has `K = 1` points, but `3·fs·duree = 3/4 ≠ 1`. -/
theorem freq_axis_count_cex :
    (compute_dft (1/2) (1/2) [0]).1.length = 1 ∧
    ¬ (((compute_dft (1/2) (1/2) [0]).1.length : ℝ) = 3 * (1/2) * (1/2)) := by
  have hlen : (compute_dft (1/2 : ℝ) (1/2) [0]).1.length = 1 := by
    rw [compute_dft_fst, arange0_length]
    have h34 : ((3 * (1/2) / (1 / (1/2))) : ℝ) = 3/4 := by norm_num
    rw [h34]
    have hle : Nat.ceil ((3 : ℝ)/4) ≤ 1 := Nat.ceil_le.2 (by norm_num)
    have hpos : 0 < Nat.ceil ((3 : ℝ)/4) := Nat.ceil_pos.2 (by norm_num)
    omega
  refine ⟨hlen, ?_⟩
  rw [hlen]
  norm_num

/-- C2 (amended): for every valid input the frequency axis has
`K = ⌈3·fs·duree⌉` equally spaced points, the `k`-th point being `k/duree`
(so the axis starts at `0` and is spaced `1/duree` apart), every point lies
strictly below `3·fs`, and `K = 3·fs·duree` whenever that product is an
integer. -/
theorem freq_axis_spec (fs duree : ℝ) (sig : List ℝ)
    (h1 : 0 < fs) (h2 : 0 < duree) (h3 : sig ≠ []) :
    ∃ freqs tf, compute_spectrum fs duree sig = Except.ok (freqs, tf) ∧
      freqs.length = Nat.ceil (3 * fs * duree) ∧
      (∀ k < freqs.length, freqs.getD k 0 = (k : ℝ) / duree) ∧
      (∀ x ∈ freqs, 0 ≤ x ∧ x < 3 * fs) ∧
      ((3 * fs * duree : ℝ) = (Nat.ceil (3 * fs * duree : ℝ) : ℝ) →
        (freqs.length : ℝ) = 3 * fs * duree) := by
  have hstep : (0 : ℝ) < 1 / duree := by positivity
  have hdiv : (3 * fs) / (1 / duree) = 3 * fs * duree := by
    field_simp
  refine ⟨(compute_dft fs duree sig).1, (compute_dft fs duree sig).2, ?_, ?_, ?_, ?_, ?_⟩
  · rw [compute_spectrum_ok fs duree sig h1 h2 h3]
  · rw [compute_dft_fst, arange0_length, hdiv]
  · intro k hk
    rw [compute_dft_fst] at hk ⊢
    rw [arange0_getD _ _ _ hk, mul_one_div]
  · intro x hx
    rw [compute_dft_fst] at hx
    refine ⟨?_, arange0_mem_lt hstep hx⟩
    rcases (arange0_mem _ _ _).1 hx with ⟨n, _, rfl⟩
    positivity
  · intro hint
    rw [compute_dft_fst, arange0_length, hdiv, ← hint]

/-- Witness for C2 (amended) at the default parameters `fs = 50`,
`duree = 3`: the axis has `⌈450⌉ = 450` points. -/
theorem freq_axis_spec_witness :
    Nat.ceil ((3 : ℝ) * 50 * 3) = 450 ∧
    (∃ freqs tf, compute_spectrum 50 3 [0] = Except.ok (freqs, tf) ∧
      freqs.length = Nat.ceil ((3 : ℝ) * 50 * 3) ∧
      (∀ k < freqs.length, freqs.getD k 0 = (k : ℝ) / 3) ∧
      (∀ x ∈ freqs, 0 ≤ x ∧ x < 3 * 50) ∧
      (((3 : ℝ) * 50 * 3) = (Nat.ceil ((3 : ℝ) * 50 * 3 : ℝ) : ℝ) →
        (freqs.length : ℝ) = 3 * 50 * 3)) := by
  constructor
  · rw [show ((3 : ℝ) * 50 * 3) = ((450 : ℕ) : ℝ) by norm_num]
    exact Nat.ceil_natCast 450
  · exact freq_axis_spec 50 3 [0] (by norm_num) (by norm_num) (by simp)

lemma gen_sig_fst (fs duree freq : ℝ) :
    (gen_sig fs duree freq).1 = arange0 duree (1 / fs) := rfl

lemma gen_sig_snd (fs duree freq : ℝ) :
    (gen_sig fs duree freq).2 =
      (arange0 duree (1 / fs)).map (fun x => Real.sin (2 * Real.pi * freq * x)) := rfl

/-- C4: the sampled signal consists of the samples at times `n/fs` strictly
below `duree`, in order, with amplitude `sin(2π·freq·t)` at each time. -/
theorem gen_sig_samples (fs duree freq : ℝ) (h1 : 0 < fs) (h2 : 0 < duree) :
    (gen_sig fs duree freq).2.length = (gen_sig fs duree freq).1.length ∧
    (∀ n : ℕ, n < (gen_sig fs duree freq).1.length ↔ (n : ℝ) / fs < duree) ∧
    (∀ n < (gen_sig fs duree freq).1.length,
      (gen_sig fs duree freq).1.getD n 0 = (n : ℝ) / fs ∧
      (gen_sig fs duree freq).2.getD n 0 =
        Real.sin (2 * Real.pi * freq * ((n : ℝ) / fs))) ∧
    (∀ x ∈ (gen_sig fs duree freq).1, x < duree) := by
  have hstep : (0 : ℝ) < 1 / fs := by positivity
  have hdiv : duree / (1 / fs) = duree * fs := by field_simp
  refine ⟨?_, ?_, ?_, ?_⟩
  · rw [gen_sig_fst, gen_sig_snd, List.length_map]
  · intro n
    rw [gen_sig_fst, arange0_length, hdiv, Nat.lt_ceil, div_lt_iff₀ h1]
  · intro n hn
    have ht : (gen_sig fs duree freq).1.getD n 0 = (n : ℝ) / fs := by
      rw [gen_sig_fst] at hn ⊢
      rw [arange0_getD _ _ _ hn, mul_one_div]
    refine ⟨ht, ?_⟩
    have hn2 : n < (arange0 duree (1 / fs)).length := by rw [← gen_sig_fst fs duree freq]; exact hn
    have hval : (arange0 duree (1 / fs)).getD n 0 = (n : ℝ) / fs := by
      rw [arange0_getD _ _ _ hn2, mul_one_div]
    rw [gen_sig_snd, List.getD_eq_getElem _ _ (by simpa using hn2), List.getElem_map]
    rw [List.getD_eq_getElem _ _ hn2] at hval
    rw [hval]
  · intro x hx
    rw [gen_sig_fst] at hx
    exact arange0_mem_lt hstep hx

/-- Witness for C4 at `fs = 1`, `duree = 1`, `freq = 0`. -/
theorem gen_sig_samples_witness :
    (gen_sig 1 1 0).2.length = (gen_sig 1 1 0).1.length ∧
    (∀ n : ℕ, n < (gen_sig 1 1 0).1.length ↔ (n : ℝ) / 1 < 1) ∧
    (∀ n < (gen_sig 1 1 0).1.length,
      (gen_sig 1 1 0).1.getD n 0 = (n : ℝ) / 1 ∧
      (gen_sig 1 1 0).2.getD n 0 =
        Real.sin (2 * Real.pi * 0 * ((n : ℝ) / 1))) ∧
    (∀ x ∈ (gen_sig 1 1 0).1, x < 1) :=
  gen_sig_samples 1 1 0 (by norm_num) (by norm_num)

/-- C8: for the signal generated at `signal_frequency = 0`, every spectrum
bin other than the one at frequency `0` has magnitude `0` (the magnitude is
concentrated at frequency `0`). -/
theorem zero_freq_spectrum (fs duree : ℝ) (h1 : 0 < fs) (h2 : 0 < duree) :
    ∃ freqs tf,
      compute_spectrum fs duree (gen_sig fs duree 0).2 = Except.ok (freqs, tf) ∧
      ∀ k : ℕ, k ≠ 0 → Complex.abs (tf.getD k 0) = 0 := by
  have hzero : ∀ x ∈ (gen_sig fs duree 0).2, x = 0 := by
    intro x hx
    rw [gen_sig_snd] at hx
    rcases List.mem_map.1 hx with ⟨t, _, rfl⟩
    norm_num
  have hne : (gen_sig fs duree 0).2 ≠ [] := by
    have hlen : 0 < (gen_sig fs duree 0).2.length := by
      rw [gen_sig_snd, List.length_map, arange0_length]
      exact Nat.ceil_pos.2 (by positivity)
    exact List.length_pos.1 hlen
  refine ⟨(compute_dft fs duree (gen_sig fs duree 0).2).1,
    (compute_dft fs duree (gen_sig fs duree 0).2).2, ?_, ?_⟩
  · rw [compute_spectrum_ok fs duree _ h1 h2 hne]
  · intro k _
    rcases lt_or_ge k (compute_dft fs duree (gen_sig fs duree 0).2).2.length with h | h
    · rw [compute_dft_snd_getD _ _ _ _ h, dftCoeff_of_forall_zero hzero]
      simp
    · rw [List.getD_eq_default _ _ h]
      simp

/-- Witness for C8 at `fs = 1`, `duree = 1`. -/
theorem zero_freq_spectrum_witness :
    ∃ freqs tf,
      compute_spectrum 1 1 (gen_sig 1 1 0).2 = Except.ok (freqs, tf) ∧
      ∀ k : ℕ, k ≠ 0 → Complex.abs (tf.getD k 0) = 0 :=
  zero_freq_spectrum 1 1 (by norm_num) (by norm_num)

lemma freq_domain_lines_eq (fs freq : ℝ) :
    freq_domain_lines fs freq =
      [⟨(0 - 1 : ℝ) * fs + freq, false⟩, ⟨-freq + (0 + 1 : ℝ) * fs, false⟩,
       ⟨(1 - 1 : ℝ) * fs + freq, false⟩, ⟨-freq + (1 + 1 : ℝ) * fs, false⟩,
       ⟨(2 - 1 : ℝ) * fs + freq, false⟩, ⟨-freq + (2 + 1 : ℝ) * fs, false⟩,
       ⟨(3 - 1 : ℝ) * fs + freq, false⟩, ⟨-freq + (3 + 1 : ℝ) * fs, false⟩,
       ⟨freq, true⟩] := by
  simp only [freq_domain_lines, show (4 : ℕ) = 3 + 1 by rfl, List.range_succ,
    List.flatMap_append, List.flatMap_cons, List.flatMap_nil, List.range_zero,
    List.nil_append, List.append_assoc]
  norm_num

/-- C5: the marker lines drawn on the frequency-domain plot are exactly the
frequencies `(k-1)·fs + freq` and `-freq + (k+1)·fs` for `k` in `0..3`
together with `freq`, and `freq` is the unique solid line. -/
theorem freq_domain_lines_spec (fs freq : ℝ) :
    (∀ x : ℝ, (∃ m ∈ freq_domain_lines fs freq, m.pos = x) ↔
      ((∃ k : ℕ, k ≤ 3 ∧ x = ((k : ℝ) - 1) * fs + freq) ∨
       (∃ k : ℕ, k ≤ 3 ∧ x = -freq + ((k : ℝ) + 1) * fs) ∨
       x = freq)) ∧
    (freq_domain_lines fs freq).filter (fun m => m.solid) = [⟨freq, true⟩] := by
  constructor
  · intro x
    rw [freq_domain_lines_eq]
    constructor
    · rintro ⟨m, hm, rfl⟩
      simp only [List.mem_cons, List.not_mem_nil, or_false] at hm
      rcases hm with rfl | rfl | rfl | rfl | rfl | rfl | rfl | rfl | rfl
      · exact Or.inl ⟨0, by norm_num⟩
      · exact Or.inr (Or.inl ⟨0, by norm_num⟩)
      · exact Or.inl ⟨1, by norm_num⟩
      · exact Or.inr (Or.inl ⟨1, by norm_num⟩)
      · exact Or.inl ⟨2, by norm_num⟩
      · exact Or.inr (Or.inl ⟨2, by norm_num⟩)
      · exact Or.inl ⟨3, by norm_num⟩
      · exact Or.inr (Or.inl ⟨3, by norm_num⟩)
      · exact Or.inr (Or.inr rfl)
    · rintro (⟨k, hk, rfl⟩ | ⟨k, hk, rfl⟩ | h)
      · interval_cases k
        · exact ⟨⟨(0 - 1 : ℝ) * fs + freq, false⟩, by norm_num, by norm_num⟩
        · exact ⟨⟨(1 - 1 : ℝ) * fs + freq, false⟩, by norm_num, by norm_num⟩
        · exact ⟨⟨(2 - 1 : ℝ) * fs + freq, false⟩, by norm_num, by norm_num⟩
        · exact ⟨⟨(3 - 1 : ℝ) * fs + freq, false⟩, by norm_num, by norm_num⟩
      · interval_cases k
        · exact ⟨⟨-freq + (0 + 1 : ℝ) * fs, false⟩, by norm_num, by norm_num⟩
        · exact ⟨⟨-freq + (1 + 1 : ℝ) * fs, false⟩, by norm_num, by norm_num⟩
        · exact ⟨⟨-freq + (2 + 1 : ℝ) * fs, false⟩, by norm_num, by norm_num⟩
        · exact ⟨⟨-freq + (3 + 1 : ℝ) * fs, false⟩, by norm_num, by norm_num⟩
      · exact ⟨⟨freq, true⟩, by norm_num, h.symm⟩
  · rw [freq_domain_lines_eq]
    rfl
